import Mathlib

/-!
Formal model of the ropenbci OpenBCI serial driver (src/lib.rs), a shallow
embedding of the byte framer, the 24-bit channel codec, the packet decoder,
the parity pairing state machine and the acquisition loop, together with
proofs about the spec's claims over them.

Bytes are modelled as `Nat` (the Rust code reads `u8` values, always below
256); 32-bit signed results of the codec are modelled as `Int` (the decoded
values fit far inside the `i32` range, so no overflow wrapping occurs).
A Rust `panic!` is modelled as `Option.none`.
-/

/-- The mutable local `result` of `i24toi32` (src/lib.rs lines 276-278)
before the sign branch: mask every byte with `0xFF`, shift into place and
`or` together. -/
def i24concat (bytes : List Nat) : Nat :=
  ((0xFF &&& bytes.getD 0 0) <<< 16) |||
  ((0xFF &&& bytes.getD 1 0) <<< 8) |||
  (0xFF &&& bytes.getD 2 0)

/-- The 24-bit signed codec `i24toi32` of src/lib.rs (lines 272-286).
The Rust function panics when the slice length is not 3; the panic is
modelled as `none`.  After concatenation it branches on bit 23: negative
values are `-(result & 0x7FFFFF)`, positive ones `result & 0xFFFFFF`. -/
def i24toi32 (bytes : List Nat) : Option Int :=
  if bytes.length ≠ 3 then none
  else if i24concat bytes &&& 0x800000 > 0 then
    some (-(((i24concat bytes &&& 0x7FFFFF) : Nat) : Int))
  else
    some (((i24concat bytes &&& 0xFFFFFF) : Nat) : Int)

/-- Masking a byte below 256 with `0xFF` is the identity. -/
lemma and255_eq (b : Nat) (h : b < 256) : 0xFF &&& b = b := by
  rw [Nat.and_comm]
  have h8 : (0xFF : Nat) = 2 ^ 8 - 1 := by norm_num
  rw [h8, Nat.and_pow_two_sub_one_eq_mod]
  exact Nat.mod_eq_of_lt h

/-- The shift-and-or concatenation of three bytes is the big-endian value. -/
lemma lor_concat (b0 b1 b2 : Nat) (h1 : b1 < 256) (h2 : b2 < 256) :
    (b0 <<< 16) ||| (b1 <<< 8) ||| b2 = b0 * 65536 + b1 * 256 + b2 := by
  rw [Nat.shiftLeft_eq, Nat.shiftLeft_eq]
  have e1 : 2 ^ 16 * b0 + b1 * 2 ^ 8 = 2 ^ 16 * b0 ||| b1 * 2 ^ 8 :=
    Nat.mul_add_lt_is_or (by norm_num; omega) b0
  have e2 : 2 ^ 8 * (2 ^ 8 * b0 + b1) + b2 = 2 ^ 8 * (2 ^ 8 * b0 + b1) ||| b2 :=
    Nat.mul_add_lt_is_or (by norm_num; omega) (2 ^ 8 * b0 + b1)
  have s1 : b0 * 2 ^ 16 = 2 ^ 16 * b0 := Nat.mul_comm _ _
  rw [s1, ← e1]
  have s2 : 2 ^ 16 * b0 + b1 * 2 ^ 8 = 2 ^ 8 * (2 ^ 8 * b0 + b1) := by ring
  rw [s2, ← e2]
  ring

/-- `n &&& 2 ^ 23` is positive exactly when bit 23 of `n` is set. -/
lemma and_bit23_pos (n : Nat) : 0 < n &&& 0x800000 ↔ n.testBit 23 = true := by
  have h : (0x800000 : Nat) = 2 ^ 23 := by norm_num
  rw [h, Nat.and_two_pow]
  cases hb : n.testBit 23 <;> simp [hb]

/-- Claim C1: for every 3-byte input, `i24toi32` concatenates the bytes
big-endian into a 24-bit magnitude; when bit 23 is set it returns
`-(magnitude &&& 0x7FFFFF)` (that is, minus the magnitude modulo `2 ^ 23`),
otherwise the magnitude masked to 24 bits (modulo `2 ^ 24`); and it maps the
six boundary inputs of the spec to 493214, -493214, 8388607, -8388607, 1
and -1 respectively. -/
theorem i24toi32_sign_magnitude (b0 b1 b2 : Nat)
    (h0 : b0 < 256) (h1 : b1 < 256) (h2 : b2 < 256) :
    i24toi32 [b0, b1, b2] =
      some (if (b0 * 65536 + b1 * 256 + b2).testBit 23
        then -(((b0 * 65536 + b1 * 256 + b2) % 2 ^ 23 : Nat) : Int)
        else (((b0 * 65536 + b1 * 256 + b2) % 2 ^ 24 : Nat) : Int)) ∧
    i24toi32 [0x07, 0x86, 0x9E] = some 493214 ∧
    i24toi32 [0x87, 0x86, 0x9E] = some (-493214) ∧
    i24toi32 [0x7F, 0xFF, 0xFF] = some 8388607 ∧
    i24toi32 [0xFF, 0xFF, 0xFF] = some (-8388607) ∧
    i24toi32 [0x00, 0x00, 0x01] = some 1 ∧
    i24toi32 [0x80, 0x00, 0x01] = some (-1) := by
  refine ⟨?_, by decide, by decide, by decide, by decide, by decide, by decide⟩
  have hcat : i24concat [b0, b1, b2] = b0 * 65536 + b1 * 256 + b2 := by
    unfold i24concat
    simp only [List.getD_cons_zero, List.getD_cons_succ]
    rw [and255_eq b0 h0, and255_eq b1 h1, and255_eq b2 h2, lor_concat b0 b1 b2 h1 h2]
  unfold i24toi32
  rw [if_neg (by simp), hcat]
  set m := b0 * 65536 + b1 * 256 + b2 with hm
  have h23 : (0x7FFFFF : Nat) = 2 ^ 23 - 1 := by norm_num
  have h24 : (0xFFFFFF : Nat) = 2 ^ 24 - 1 := by norm_num
  rw [h23, h24, Nat.and_pow_two_sub_one_eq_mod, Nat.and_pow_two_sub_one_eq_mod]
  cases hb : m.testBit 23 with
  | false =>
    rw [if_neg (by rw [gt_iff_lt, and_bit23_pos]; simp [hb]), if_neg (by simp [hb])]
  | true =>
    rw [if_pos (by rw [gt_iff_lt, and_bit23_pos]; exact hb), if_pos (by simp [hb])]

theorem i24toi32_sign_magnitude_witness :
    i24toi32 [135, 134, 158] =
      some (if (135 * 65536 + 134 * 256 + 158 : Nat).testBit 23
        then -(((135 * 65536 + 134 * 256 + 158 : Nat) % 2 ^ 23 : Nat) : Int)
        else (((135 * 65536 + 134 * 256 + 158 : Nat) % 2 ^ 24 : Nat) : Int)) :=
  (i24toi32_sign_magnitude 135 134 158 (by decide) (by decide) (by decide)).1

/-- The `Packet` struct of src/lib.rs (lines 183-198): one decoded 32-byte
frame.  Field names follow the source; `_header` is the raw frame counter. -/
structure Packet where
  _header : Nat
  sample_number : Nat
  chan_1 : Int
  chan_2 : Int
  chan_3 : Int
  chan_4 : Int
  chan_5 : Int
  chan_6 : Int
  chan_7 : Int
  chan_8 : Int
  acc_x : Nat
  acc_y : Nat
  acc_z : Nat
  deriving DecidableEq

/-- `Packet::from_bytes` (src/lib.rs lines 201-217).  The Rust function takes
a `&[u8; 32]`; here the frame is a byte list and each of the eight `i24toi32`
calls receives the same 3-byte slice the source passes (`&bytes[2..=4]` is
`(bytes.drop 2).take 3`, and so on).  A panic inside any call propagates as
`none`.  The accelerometer fields combine two bytes little-endian exactly as
the source (`bytes[26] as u16 | (bytes[27] as u16) << 8`). -/
def Packet.from_bytes (bytes : List Nat) : Option Packet :=
  (i24toi32 ((bytes.drop 2).take 3)).bind fun c1 =>
  (i24toi32 ((bytes.drop 5).take 3)).bind fun c2 =>
  (i24toi32 ((bytes.drop 8).take 3)).bind fun c3 =>
  (i24toi32 ((bytes.drop 11).take 3)).bind fun c4 =>
  (i24toi32 ((bytes.drop 14).take 3)).bind fun c5 =>
  (i24toi32 ((bytes.drop 17).take 3)).bind fun c6 =>
  (i24toi32 ((bytes.drop 20).take 3)).bind fun c7 =>
  (i24toi32 ((bytes.drop 23).take 3)).bind fun c8 =>
  some
    { _header := bytes.getD 0 0
      sample_number := bytes.getD 1 0
      chan_1 := c1
      chan_2 := c2
      chan_3 := c3
      chan_4 := c4
      chan_5 := c5
      chan_6 := c6
      chan_7 := c7
      chan_8 := c8
      acc_x := bytes.getD 26 0 ||| (bytes.getD 27 0 <<< 8)
      acc_y := bytes.getD 28 0 ||| (bytes.getD 29 0 <<< 8)
      acc_z := bytes.getD 30 0 ||| (bytes.getD 31 0 <<< 8) }

/-- The `Reading` struct of src/lib.rs (lines 221-243): the consumer-facing
16-channel composite of two paired packets. -/
structure Reading where
  sample_numbers : Nat × Nat
  chan_1 : Int
  chan_2 : Int
  chan_3 : Int
  chan_4 : Int
  chan_5 : Int
  chan_6 : Int
  chan_7 : Int
  chan_8 : Int
  chan_9 : Int
  chan_10 : Int
  chan_11 : Int
  chan_12 : Int
  chan_13 : Int
  chan_14 : Int
  chan_15 : Int
  chan_16 : Int
  acc_x : Nat
  acc_y : Nat
  acc_z : Nat
  deriving DecidableEq

/-- `Reading::from_packets` (src/lib.rs lines 246-269).  The Rust function
takes `[Packet; 2]`; here the two array entries `packets[0]` (odd slot) and
`packets[1]` (even slot) are the two arguments, in order. -/
def Reading.from_packets (p0 p1 : Packet) : Reading :=
  { sample_numbers := (p0.sample_number, p1.sample_number)
    chan_1 := p0.chan_1
    chan_2 := p0.chan_2
    chan_3 := p0.chan_3
    chan_4 := p0.chan_4
    chan_5 := p0.chan_5
    chan_6 := p0.chan_6
    chan_7 := p0.chan_7
    chan_8 := p0.chan_8
    chan_9 := p1.chan_1
    chan_10 := p1.chan_2
    chan_11 := p1.chan_3
    chan_12 := p1.chan_4
    chan_13 := p1.chan_5
    chan_14 := p1.chan_6
    chan_15 := p1.chan_7
    chan_16 := p1.chan_8
    acc_x := p1.acc_x
    acc_y := p1.acc_y
    acc_z := p1.acc_z }

/-- Claim C4: the synthesized Reading takes sample_numbers from
(odd slot, even slot), channels 1-8 from the odd-slot packet, channels 9-16
from the even-slot packet's channels 1-8, and the three accelerometer fields
from the even-slot packet only; all nineteen fields are listed, so none is
left unpopulated. -/
theorem reading_from_packets_fields (p0 p1 : Packet) :
    (Reading.from_packets p0 p1).sample_numbers = (p0.sample_number, p1.sample_number) ∧
    (Reading.from_packets p0 p1).chan_1 = p0.chan_1 ∧
    (Reading.from_packets p0 p1).chan_2 = p0.chan_2 ∧
    (Reading.from_packets p0 p1).chan_3 = p0.chan_3 ∧
    (Reading.from_packets p0 p1).chan_4 = p0.chan_4 ∧
    (Reading.from_packets p0 p1).chan_5 = p0.chan_5 ∧
    (Reading.from_packets p0 p1).chan_6 = p0.chan_6 ∧
    (Reading.from_packets p0 p1).chan_7 = p0.chan_7 ∧
    (Reading.from_packets p0 p1).chan_8 = p0.chan_8 ∧
    (Reading.from_packets p0 p1).chan_9 = p1.chan_1 ∧
    (Reading.from_packets p0 p1).chan_10 = p1.chan_2 ∧
    (Reading.from_packets p0 p1).chan_11 = p1.chan_3 ∧
    (Reading.from_packets p0 p1).chan_12 = p1.chan_4 ∧
    (Reading.from_packets p0 p1).chan_13 = p1.chan_5 ∧
    (Reading.from_packets p0 p1).chan_14 = p1.chan_6 ∧
    (Reading.from_packets p0 p1).chan_15 = p1.chan_7 ∧
    (Reading.from_packets p0 p1).chan_16 = p1.chan_8 ∧
    (Reading.from_packets p0 p1).acc_x = p1.acc_x ∧
    (Reading.from_packets p0 p1).acc_y = p1.acc_y ∧
    (Reading.from_packets p0 p1).acc_z = p1.acc_z :=
  ⟨rfl, rfl, rfl, rfl, rfl, rfl, rfl, rfl, rfl, rfl,
   rfl, rfl, rfl, rfl, rfl, rfl, rfl, rfl, rfl, rfl⟩

/-- A length-3 input never hits the panic branch of `i24toi32`. -/
lemma i24toi32_isSome_of_len3 (bs : List Nat) (h : bs.length = 3) :
    ∃ v, i24toi32 bs = some v := by
  unfold i24toi32
  rw [if_neg (by omega)]
  split
  · exact ⟨_, rfl⟩
  · exact ⟨_, rfl⟩

/-- Claim C9: `i24toi32` panics (returns `none`) exactly when its input has
length other than 3, and every one of the eight slices `Packet.from_bytes`
passes has length exactly 3 on a 32-byte frame, so decoding a 32-byte frame
always produces a Packet. -/
theorem i24toi32_panic_iff_len_and_frame_decode_safe :
    (∀ bs : List Nat, i24toi32 bs = none ↔ bs.length ≠ 3) ∧
    (∀ bytes : List Nat, bytes.length = 32 →
      (Packet.from_bytes bytes).isSome = true) := by
  constructor
  · intro bs
    constructor
    · intro hnone hlen
      obtain ⟨v, hv⟩ := i24toi32_isSome_of_len3 bs hlen
      rw [hv] at hnone
      exact Option.noConfusion hnone
    · intro hlen
      unfold i24toi32
      rw [if_pos hlen]
  · intro bytes h32
    have slice3 : ∀ k : Nat, k + 3 ≤ 32 → ((bytes.drop k).take 3).length = 3 := by
      intro k hk
      simp only [List.length_take, List.length_drop, h32]
      omega
    obtain ⟨v1, e1⟩ := i24toi32_isSome_of_len3 _ (slice3 2 (by omega))
    obtain ⟨v2, e2⟩ := i24toi32_isSome_of_len3 _ (slice3 5 (by omega))
    obtain ⟨v3, e3⟩ := i24toi32_isSome_of_len3 _ (slice3 8 (by omega))
    obtain ⟨v4, e4⟩ := i24toi32_isSome_of_len3 _ (slice3 11 (by omega))
    obtain ⟨v5, e5⟩ := i24toi32_isSome_of_len3 _ (slice3 14 (by omega))
    obtain ⟨v6, e6⟩ := i24toi32_isSome_of_len3 _ (slice3 17 (by omega))
    obtain ⟨v7, e7⟩ := i24toi32_isSome_of_len3 _ (slice3 20 (by omega))
    obtain ⟨v8, e8⟩ := i24toi32_isSome_of_len3 _ (slice3 23 (by omega))
    unfold Packet.from_bytes
    rw [e1, e2, e3, e4, e5, e6, e7, e8]
    rfl

theorem i24toi32_panic_iff_witness :
    (List.replicate 32 0).length = 32 ∧
    (Packet.from_bytes (List.replicate 32 0)).isSome = true :=
  ⟨by decide,
   i24toi32_panic_iff_len_and_frame_decode_safe.2 (List.replicate 32 0) (by decide)⟩

/-- One pass of the body of `while packet_buffer.len() >= 2` in
`OpenBCI::start` (src/lib.rs lines 145-167) for a single removed packet:
the three-way parity/slot conditional (the first branch is the `continue`,
which skips the emission check), followed by the both-slots-full check that
synthesizes a Reading and clears both slots.  Returns the two slots after
the step and the Reading emitted by the step, if any. -/
def pairStore (packet : Packet) (s0 s1 : Option Packet) :
    Option Packet × Option Packet :=
  if packet.sample_number % 2 = 1 ∧ s0 = none then (some packet, s1)
  else if packet.sample_number % 2 = 0 ∧ s1 = none then (s0, some packet)
  else (s0, s1)

def pairStep (packet : Packet) (s0 s1 : Option Packet) :
    Option Packet × Option Packet × Option Reading :=
  if packet.sample_number % 2 = 0 ∧ s0 = none then
    (s0, s1, none)
  else
    match pairStore packet s0 s1 with
    | (some p0, some p1) => (none, none, some (Reading.from_packets p0 p1))
    | (t0, t1) => (t0, t1, none)

/-- The full `while packet_buffer.len() >= 2` drain loop of `OpenBCI::start`
(src/lib.rs lines 145-168): while at least two packets are buffered, remove
the first and run `pairStep`, accumulating emitted Readings in send order.
Returns the remaining packet buffer, both slots, and the Readings sent. -/
def drain : List Packet → Option Packet → Option Packet → List Reading →
    List Packet × Option Packet × Option Packet × List Reading
  | p :: q :: rest, s0, s1, out =>
    match pairStep p s0 s1 with
    | (t0, t1, r) => drain (q :: rest) t0 t1 (out ++ r.toList)
  | buf, s0, s1, out => (buf, s0, s1, out)

/-- A step never leaves the even slot occupied: it is filled only when the
odd slot is already occupied, which immediately synthesizes a Reading and
clears both slots.  Hence in every reachable state of the pairing machine
the even slot is empty between steps. -/
lemma pairStep_slot_even_none (packet : Packet) (s0 : Option Packet) :
    (pairStep packet s0 none).2.1 = none := by
  unfold pairStep pairStore
  by_cases h1 : packet.sample_number % 2 = 0 ∧ s0 = none
  · rw [if_pos h1]
  · rw [if_neg h1]
    by_cases h2 : packet.sample_number % 2 = 1 ∧ s0 = none
    · rw [if_pos h2]
    · rw [if_neg h2]
      by_cases h3 : packet.sample_number % 2 = 0 ∧ (none : Option Packet) = none
      · rw [if_pos h3]
        cases hs : s0 with
        | none => exact absurd ⟨h3.1, hs⟩ h1
        | some a => rfl
      · rw [if_neg h3]
        cases s0 <;> rfl

/-- Claim C7: when the odd slot is occupied (the even slot being empty, as
it is in every reachable inter-step state, see `pairStep_slot_even_none`),
an incoming packet with an odd sample number matches none of the three
storage branches: both slots are left unchanged, the packet is stored
nowhere, and no Reading is emitted by that step. -/
theorem repeat_odd_leaves_state_unchanged (packet held : Packet)
    (hodd : packet.sample_number % 2 = 1) :
    pairStep packet (some held) none = (some held, none, none) := by
  unfold pairStep pairStore
  rw [if_neg (by simp [hodd]), if_neg (by simp), if_neg (by simp [hodd])]

theorem repeat_odd_leaves_state_unchanged_witness :
    pairStep ⟨0, 3, 0, 0, 0, 0, 0, 0, 0, 0, 0, 0, 0⟩
        (some ⟨0, 1, 0, 0, 0, 0, 0, 0, 0, 0, 0, 0, 0⟩) none =
      (some ⟨0, 1, 0, 0, 0, 0, 0, 0, 0, 0, 0, 0, 0⟩, none, none) :=
  repeat_odd_leaves_state_unchanged
    ⟨0, 3, 0, 0, 0, 0, 0, 0, 0, 0, 0, 0, 0⟩
    ⟨0, 1, 0, 0, 0, 0, 0, 0, 0, 0, 0, 0, 0⟩ (by decide)

/-- An odd packet arriving with both slots empty is stored in the odd slot
and nothing is emitted. -/
lemma pairStep_odd_empty (p : Packet) (h : p.sample_number % 2 = 1) :
    pairStep p none none = (some p, none, none) := by
  unfold pairStep pairStore
  rw [if_neg (by simp [h]), if_pos ⟨h, rfl⟩]

/-- An even packet arriving with the odd slot empty is discarded (the
`continue` branch): slots unchanged, nothing emitted. -/
lemma pairStep_even_discard (p : Packet) (s1 : Option Packet)
    (h : p.sample_number % 2 = 0) :
    pairStep p none s1 = (none, s1, none) := by
  unfold pairStep
  rw [if_pos ⟨h, rfl⟩]

/-- An even packet arriving while the odd slot holds `held` fills the even
slot, which immediately synthesizes the Reading and clears both slots. -/
lemma pairStep_even_held (p held : Packet) (h : p.sample_number % 2 = 0) :
    pairStep p (some held) none = (none, none, some (Reading.from_packets held p)) := by
  unfold pairStep pairStore
  rw [if_neg (by simp), if_neg (by simp [h]), if_pos ⟨h, rfl⟩]

/-- Concrete odd-sample packet used for concrete evaluations. -/
def oddPacket : Packet := ⟨0, 1, 101, 102, 103, 104, 105, 106, 107, 108, 11, 12, 13⟩

/-- Concrete even-sample packet used for concrete evaluations. -/
def evenPacket : Packet := ⟨1, 2, 201, 202, 203, 204, 205, 206, 207, 208, 21, 22, 23⟩

/-- A second concrete even-sample packet. -/
def evenPacket2 : Packet := ⟨2, 4, 301, 302, 303, 304, 305, 306, 307, 308, 31, 32, 33⟩

/-- Counterexample to claim C3: feeding the batch [odd, even] to the drain
loop yields NO Reading.  The loop condition `packet_buffer.len() >= 2` with
one removal per iteration stops after processing only the odd packet: the
odd packet sits in the odd slot, the even packet is still in the packet
buffer, and the emitted-Readings list is empty — not the one Reading the
claim states. -/
theorem drain_odd_even_yields_no_reading :
    drain [oddPacket, evenPacket] none none [] =
      ([evenPacket], some oddPacket, none, []) := by decide

/-- Claim C3 (amended): feeding [odd, even] processes only the odd packet —
the odd packet is stored in the odd slot, the even packet remains in the
packet buffer, and no Reading is emitted; the pair's Reading (with channels
1-8 from the odd packet and 9-16 from the even packet, per
`Reading.from_packets`) is emitted only once a further packet makes the
buffer length reach 2 again, as feeding [odd, even, x] shows. -/
theorem drain_defers_last_packet (p1 p2 p3 : Packet)
    (h1 : p1.sample_number % 2 = 1) (h2 : p2.sample_number % 2 = 0) :
    drain [p1, p2] none none [] = ([p2], some p1, none, []) ∧
    drain [p1, p2, p3] none none [] =
      ([p3], none, none, [Reading.from_packets p1 p2]) := by
  have e1 := pairStep_odd_empty p1 h1
  have e2 := pairStep_even_held p2 p1 h2
  constructor
  · simp only [drain, e1, Option.toList_none, List.append_nil]
  · simp only [drain, e1, e2, Option.toList_none, Option.toList_some,
      List.append_nil, List.nil_append]

theorem drain_defers_last_packet_witness :
    drain [oddPacket, evenPacket] none none [] =
      ([evenPacket], some oddPacket, none, []) ∧
    drain [oddPacket, evenPacket, evenPacket2] none none [] =
      ([evenPacket2], none, none, [Reading.from_packets oddPacket evenPacket]) :=
  drain_defers_last_packet oddPacket evenPacket evenPacket2 (by decide) (by decide)

/-- Counterexample to claim C5: feeding the batch [even, odd, even] to the
drain loop yields NO Reading.  The first even packet is discarded, the odd
packet is stored in the odd slot, and then the loop stops because only one
packet remains in the buffer: the trailing even packet is never processed
in this batch and the emitted-Readings list is empty — not the one Reading
the claim states. -/
theorem drain_even_odd_even_yields_no_reading :
    drain [evenPacket, oddPacket, evenPacket2] none none [] =
      ([evenPacket2], some oddPacket, none, []) := by decide

/-- Claim C5 (amended): feeding [even, odd, even] emits no Reading: the
first even packet is discarded (it ends up in no slot and not in the
buffer), the odd packet is stored in the odd slot, and the trailing even
packet remains unprocessed in the packet buffer; the Reading built from the
second (odd) and third (even) packets is emitted only once a further packet
arrives, as feeding [even, odd, even, x] shows. -/
theorem drain_leading_even_discarded (e1 o e2 x : Packet)
    (he1 : e1.sample_number % 2 = 0) (ho : o.sample_number % 2 = 1)
    (he2 : e2.sample_number % 2 = 0) :
    drain [e1, o, e2] none none [] = ([e2], some o, none, []) ∧
    drain [e1, o, e2, x] none none [] =
      ([x], none, none, [Reading.from_packets o e2]) := by
  have d1 := pairStep_even_discard e1 none he1
  have d2 := pairStep_odd_empty o ho
  have d3 := pairStep_even_held e2 o he2
  constructor
  · simp only [drain, d1, d2, Option.toList_none, List.append_nil]
  · simp only [drain, d1, d2, d3, Option.toList_none, Option.toList_some,
      List.append_nil, List.nil_append]

theorem drain_leading_even_discarded_witness :
    drain [evenPacket, oddPacket, evenPacket2] none none [] =
      ([evenPacket2], some oddPacket, none, []) ∧
    drain [evenPacket, oddPacket, evenPacket2, oddPacket] none none [] =
      ([oddPacket], none, none, [Reading.from_packets oddPacket evenPacket2]) :=
  drain_leading_even_discarded evenPacket oddPacket evenPacket2 oddPacket
    (by decide) (by decide) (by decide)

/-- The frame-scan loop of `OpenBCI::start` (src/lib.rs lines 130-139):
walk the accumulation buffer with its running index (the source's
`buffer.iter().enumerate()`); at every byte equal to `0xA0` whose index
satisfies `index + 32 < buffer.len()`, extract the 32-byte slice starting
there and overwrite the purge index with `index + 32`. -/
def scanAux (buffer : List Nat) :
    List Nat → Nat → List (List Nat) → Nat → List (List Nat) × Nat
  | [], _, frames, purge => (frames, purge)
  | b :: rest, i, frames, purge =>
    if b = 0xA0 ∧ i + 32 < buffer.length then
      scanAux buffer rest (i + 1) (frames ++ [(buffer.drop i).take 32]) (i + 32)
    else
      scanAux buffer rest (i + 1) frames purge

/-- One scan pass over the whole accumulation buffer, starting at index 0
with no frames extracted and purge index 0. -/
def framerScan (buffer : List Nat) : List (List Nat) × Nat :=
  scanAux buffer buffer 0 [] 0

/-- A scan pass followed by the purge `buffer.drain(0..purge_index)` of
src/lib.rs lines 141-143 (the source drains only when `purge_index > 0`,
which coincides with dropping `purge_index` bytes, as `List.drop 0` is the
identity): the extracted frames and the buffer left for the next read. -/
def framerStep (buffer : List Nat) : List (List Nat) × List Nat :=
  ((framerScan buffer).1, buffer.drop (framerScan buffer).2)

/-- The indices at which the scan extracts a frame: positions `i` holding
byte `0xA0` with `i + 32` strictly below the buffer length, in increasing
order. -/
def frameIdxs (buffer : List Nat) : List Nat :=
  (buffer.enum.filter fun p => decide (p.2 = 0xA0 ∧ p.1 + 32 < buffer.length)).map
    Prod.fst

/-- Characterization of the scan loop over an arbitrary tail of the buffer:
the frames appended are exactly the 32-byte slices at the matching
enumerated positions, and the final purge index is the fold that overwrites
it with `index + 32` at each match. -/
lemma scanAux_enum_spec (buffer : List Nat) :
    ∀ (rest : List Nat) (i : Nat) (frames : List (List Nat)) (purge : Nat),
    scanAux buffer rest i frames purge =
      (frames ++ ((List.enumFrom i rest).filter fun p =>
          decide (p.2 = 0xA0 ∧ p.1 + 32 < buffer.length)).map
            (fun p => (buffer.drop p.1).take 32),
       ((List.enumFrom i rest).filter fun p =>
          decide (p.2 = 0xA0 ∧ p.1 + 32 < buffer.length)).foldl
            (fun _ p => p.1 + 32) purge) := by
  intro rest
  induction rest with
  | nil => intro i frames purge; simp [scanAux]
  | cons b bs ih =>
    intro i frames purge
    simp only [scanAux, List.enumFrom, List.filter_cons]
    by_cases hc : b = 0xA0 ∧ i + 32 < buffer.length
    · rw [if_pos hc, ih]
      simp only [decide_eq_true (show (i, b).2 = 0xA0 ∧ (i, b).1 + 32 < buffer.length from hc)]
      simp [List.append_assoc]
    · rw [if_neg hc, ih]
      simp only [decide_eq_false (show ¬((i, b).2 = 0xA0 ∧ (i, b).1 + 32 < buffer.length) from hc)]
      simp

/-- The scan walks through a marker-free stretch without extracting
anything or moving the purge index. -/
lemma scanAux_skip (buffer : List Nat) (chunk : List Nat) :
    ∀ (rest : List Nat) (i : Nat) (frames : List (List Nat)) (purge : Nat),
    (∀ b ∈ chunk, b ≠ 0xA0) →
    scanAux buffer (chunk ++ rest) i frames purge =
      scanAux buffer rest (i + chunk.length) frames purge := by
  induction chunk with
  | nil => intro rest i frames purge _; simp
  | cons b cs ih =>
    intro rest i frames purge hch
    have hb : b ≠ 0xA0 := hch b (by simp)
    have step : scanAux buffer ((b :: cs) ++ rest) i frames purge =
        scanAux buffer (cs ++ rest) (i + 1) frames purge := by
      show scanAux buffer (b :: (cs ++ rest)) i frames purge = _
      simp only [scanAux]
      rw [if_neg (by tauto)]
    rw [step, ih rest (i + 1) frames purge (fun x hx => hch x (List.mem_cons_of_mem b hx))]
    have harith : i + 1 + cs.length = i + (b :: cs).length := by
      simp only [List.length_cons]
      omega
    rw [harith]

/-- Running the scan over a buffer made of well-formed 32-byte frames
followed by a marker-free nonempty suffix extracts exactly those frames and
leaves the purge index at the end of the last frame. -/
lemma scanAux_joined_frames (buffer : List Nat) :
    ∀ (frames : List (List Nat)) (suffix : List Nat) (i : Nat)
      (acc : List (List Nat)) (purge : Nat),
    buffer.drop i = frames.flatten ++ suffix →
    (∀ f ∈ frames, f.length = 32) →
    (∀ f ∈ frames, f.head? = some 0xA0) →
    (∀ f ∈ frames, ∀ b ∈ f.tail, b ≠ 0xA0) →
    (∀ b ∈ suffix, b ≠ 0xA0) →
    suffix ≠ [] →
    scanAux buffer (frames.flatten ++ suffix) i acc purge =
      (acc ++ frames, if frames = [] then purge else i + 32 * frames.length) := by
  intro frames
  induction frames with
  | nil =>
    intro suffix i acc purge _ _ _ _ hsuf _
    have hskip := scanAux_skip buffer suffix [] i acc purge hsuf
    rw [List.append_nil] at hskip
    simp only [List.flatten_nil, List.nil_append, List.append_nil, if_pos rfl]
    rw [hskip]
    simp [scanAux]
  | cons f fs ih =>
    intro suffix i acc purge hdrop hlen hhead hbody hsuf hne
    have hfmem : f ∈ f :: fs := by simp
    obtain ⟨t, hft⟩ : ∃ t, f = 0xA0 :: t :=
      ⟨f.tail, (List.cons_head?_tail (Option.mem_def.mpr (hhead f hfmem))).symm⟩
    subst hft
    have hflen : (0xA0 :: t).length = 32 := hlen _ hfmem
    have htlen : t.length = 31 := by simpa using hflen
    have hjoin : ((0xA0 :: t) :: fs).flatten ++ suffix =
        0xA0 :: (t ++ (fs.flatten ++ suffix)) := by
      simp
    have hdroplen : (buffer.drop i).length = buffer.length - i :=
      List.length_drop i buffer
    have hlb : i + 32 < buffer.length := by
      rw [hdrop, hjoin] at hdroplen
      have hslen : suffix.length ≥ 1 := by
        cases suffix with
        | nil => exact absurd rfl hne
        | cons a l => simp
      simp only [List.length_cons, List.length_append] at hdroplen
      omega
    have hextract : (buffer.drop i).take 32 = 0xA0 :: t := by
      rw [hdrop, List.flatten_cons, List.append_assoc]
      rw [show (32 : Nat) = (0xA0 :: t).length from hflen.symm]
      exact List.take_left _ _
    have hdrop32 : buffer.drop (i + 32) = fs.flatten ++ suffix := by
      have hcomm : buffer.drop (i + 32) = (buffer.drop i).drop 32 := by
        rw [List.drop_drop]
      rw [hcomm, hdrop, List.flatten_cons, List.append_assoc]
      rw [show (32 : Nat) = (0xA0 :: t).length from hflen.symm]
      exact List.drop_left _ _
    rw [hjoin]
    simp only [scanAux]
    rw [if_pos ⟨by trivial, hlb⟩, hextract]
    have hskip := scanAux_skip buffer t (fs.flatten ++ suffix) (i + 1)
      (acc ++ [0xA0 :: t]) (i + 32)
      (fun b hb => hbody (0xA0 :: t) hfmem b (by simpa using hb))
    rw [hskip, htlen]
    rw [show i + 1 + 31 = i + 32 from by omega]
    rw [ih suffix (i + 32) (acc ++ [0xA0 :: t]) (i + 32) hdrop32
      (fun g hg => hlen g (by simp [hg])) (fun g hg => hhead g (by simp [hg]))
      (fun g hg => hbody g (by simp [hg])) hsuf hne]
    have hlist : acc ++ [0xA0 :: t] ++ fs = acc ++ (0xA0 :: t) :: fs := by simp
    have hpurge : (if fs = [] then i + 32 else i + 32 + 32 * fs.length) =
        i + 32 * ((0xA0 :: t) :: fs).length := by
      by_cases hfs : fs = []
      · subst hfs; simp
      · rw [if_neg hfs]
        simp only [List.length_cons]
        omega
    rw [hlist, hpurge, if_neg (by simp)]

/-- Counterexample to claim C2: a 32-byte buffer that is exactly one valid
frame (marker `0xA0` at index 0, so the full frame `[0, 32)` lies within the
buffer, ending exactly at the buffer's end).  The source's bounds check is
`index + 32 < buffer.len()` — strict — so NO frame is extracted, the purge
point stays 0, and the buffer is left untouched, where the claim predicts
exactly one extracted frame. -/
theorem framer_skips_flush_end_frame :
    (0xA0 :: List.replicate 31 0).length = 32 ∧
    (0xA0 :: List.replicate 31 0).getD 0 0 = 0xA0 ∧
    framerStep (0xA0 :: List.replicate 31 0) = ([], 0xA0 :: List.replicate 31 0) := by
  refine ⟨by decide, by decide, by decide⟩

/-- Claim C2 (amended): the Byte Framer extracts a 32-byte frame at every
index `i` where the byte is `0xA0` and `i + 32` is STRICTLY below the
buffer length — that is, only when at least one byte follows the frame; a
frame ending exactly at the buffer's end is not extracted and stays
buffered — records `i + 32` as the purge point (the fold keeps the last,
i.e. highest, one), and after the scan the buffer contains exactly the
bytes from the highest purge point on; consequently, for a buffer holding
k valid non-overlapping 32-byte frames with no false markers followed by a
nonempty marker-free unconsumed suffix, exactly those k frames are
extracted and the buffer afterward contains exactly that suffix. -/
theorem framer_extracts_strictly_inside :
    (∀ buffer : List Nat,
      framerStep buffer =
        ((frameIdxs buffer).map fun i => (buffer.drop i).take 32,
         buffer.drop ((frameIdxs buffer).foldl (fun _ i => i + 32) 0))) ∧
    (∀ (frames : List (List Nat)) (suffix : List Nat),
      (∀ f ∈ frames, f.length = 32) →
      (∀ f ∈ frames, f.head? = some 0xA0) →
      (∀ f ∈ frames, ∀ b ∈ f.tail, b ≠ 0xA0) →
      (∀ b ∈ suffix, b ≠ 0xA0) →
      suffix ≠ [] →
      framerStep (frames.flatten ++ suffix) = (frames, suffix)) := by
  have hchar : ∀ buffer : List Nat,
      framerScan buffer =
        ((frameIdxs buffer).map fun i => (buffer.drop i).take 32,
         (frameIdxs buffer).foldl (fun _ i => i + 32) 0) := by
    intro buffer
    unfold framerScan frameIdxs
    rw [scanAux_enum_spec buffer buffer 0 [] 0, List.map_map, List.foldl_map]
    simp [List.enum, Function.comp]
  constructor
  · intro buffer
    unfold framerStep
    rw [hchar buffer]
  · intro frames suffix hlen hhead hbody hsuf hne
    have hscan := scanAux_joined_frames (frames.flatten ++ suffix) frames suffix 0 [] 0
      (by rw [List.drop_zero]) hlen hhead hbody hsuf hne
    unfold framerStep framerScan
    rw [hscan]
    simp only [List.nil_append]
    by_cases hfr : frames = []
    · subst hfr
      simp
    · rw [if_neg hfr]
      have hflat : frames.flatten.length = 32 * frames.length := by
        rw [List.length_flatten]
        have hrep : frames.map List.length = List.replicate frames.length 32 := by
          have hmem : ∀ b ∈ frames.map List.length, b = 32 := by
            intro b hb
            obtain ⟨f, hf, rfl⟩ := List.mem_map.mp hb
            exact hlen f hf
          have := List.eq_replicate_of_mem hmem
          simpa using this
        rw [hrep, List.sum_replicate, smul_eq_mul, Nat.mul_comm]
      have hdropeq : (frames.flatten ++ suffix).drop (0 + 32 * frames.length) = suffix := by
        rw [show (0 + 32 * frames.length : Nat) = frames.flatten.length from by
          rw [hflat]; omega]
        exact List.drop_left _ _
      rw [hdropeq]

theorem framer_extracts_strictly_inside_witness :
    framerStep ([0xA0 :: List.replicate 31 0].flatten ++ [0]) =
      ([0xA0 :: List.replicate 31 0], [0]) :=
  framer_extracts_strictly_inside.2 [0xA0 :: List.replicate 31 0] [0]
    (by decide) (by decide) (by decide) (by decide) (by decide)

/-- The transport-read step of the acquisition loop (src/lib.rs lines
124-128): a zero-initialized 64-byte `temp_buffer` is filled by `read` with
the `n` returned bytes in its first `n` positions (`returned`, with
`returned.length ≤ 64`), and then `buffer.extend(&temp_buffer)` appends the
ENTIRE 64-byte temp buffer — the source never consults the byte count
`read` returned. -/
def readAppend (buffer returned : List Nat) : List Nat :=
  buffer ++ (returned ++ List.replicate (64 - returned.length) 0)

/-- Claim C6 evaluated at its failing input (a zero-byte read): the claim
says a read returning n bytes appends exactly those n bytes, so a zero-byte
read appends nothing; the code instead appends the whole zero-filled
64-byte temp buffer, growing the accumulation buffer by 64 zero bytes on
every iteration regardless of how many bytes the transport returned. -/
theorem readAppend_ignores_returned_count :
    readAppend [] [] = List.replicate 64 0 ∧
    readAppend [] [] ≠ [] ∧
    (readAppend [] []).length = 64 ∧
    (readAppend [5] [7]).length = 1 + 64 := by
  refine ⟨by decide, by decide, by decide, by decide⟩

/-- The 16 channel-identifier bytes of `OpenBCI::setup` (src/lib.rs lines
41-58): ASCII digits 1-8 for the board channels, then Q W E R T Y U I for
the daisy channels, in the source's fixed order. -/
def channels : List Nat :=
  [0x31, 0x32, 0x33, 0x34, 0x35, 0x36, 0x37, 0x38,
   0x51, 0x57, 0x45, 0x52, 0x54, 0x59, 0x55, 0x49]

/-- The six per-channel analog-front-end setting bytes of `OpenBCI::setup`
(src/lib.rs lines 60-67): power ON, gain 24, normal input, bias include,
SRB2 connect, SRB1 disconnect — ASCII digits 0 6 0 1 1 0. -/
def channel_settings : List Nat := [0x30, 0x36, 0x30, 0x31, 0x31, 0x30]

/-- The combined channel-configuration buffer `channel_write` built by
`OpenBCI::setup` (src/lib.rs lines 82-91) and sent in one
`write_all(&channel_write)` call: per channel push marker byte `x`, the
channel id, the six setting bytes, marker byte `X`; after the loop push a
single `0x0A`. -/
def channel_write : List Nat :=
  (channels.foldl
    (fun acc c => ((acc ++ [0x78, c]) ++ channel_settings) ++ [0x58]) []) ++ [0x0A]

set_option maxRecDepth 8000 in
/-- Claim C8: the channel-configuration buffer is, for each of the 16
channels in the fixed order 1-8 then Q W E R T Y U I, the byte `x` (0x78),
the channel identifier, the six setting bytes `0 6 0 1 1 0`
(0x30 0x36 0x30 0x31 0x31 0x30), and the byte `X` (0x58), followed by
exactly one terminating `0x0A` at the end of the whole buffer (it is the
last byte and occurs exactly once). -/
theorem setup_channel_buffer_layout :
    channel_write =
      (([0x31, 0x32, 0x33, 0x34, 0x35, 0x36, 0x37, 0x38,
         0x51, 0x57, 0x45, 0x52, 0x54, 0x59, 0x55, 0x49].map
        fun c => [0x78, c, 0x30, 0x36, 0x30, 0x31, 0x31, 0x30, 0x58]).flatten) ++ [0x0A] ∧
    channel_write.count 0x0A = 1 ∧
    channel_write.getLast? = some 0x0A ∧
    channel_write.length = 16 * 9 + 1 := by
  refine ⟨by decide, by decide, by decide, by decide⟩

/-- The state of the acquisition-loop thread spawned by `OpenBCI::start`
(src/lib.rs lines 106-173): the `shutdown` flag of the moved-in `OpenBCI`
value, the accumulation `buffer`, the `packet_buffer`, the two pairing
slots `packets[0]` and `packets[1]`, the transport writes performed so far
(each `write_all` call's bytes, in order), and the Readings sent so far. -/
structure LoopState where
  shutdown : Bool
  buffer : List Nat
  packet_buffer : List Packet
  slot0 : Option Packet
  slot1 : Option Packet
  writes : List (List Nat)
  sent : List Reading
  deriving DecidableEq

/-- One iteration of the `loop` in `OpenBCI::start` (src/lib.rs lines
116-169), given the bytes the transport read returns this iteration
(at most 64).  If `shutdown` is set, write the stop-streaming bytes
`0x73 0x0A` and exit (second component `true`); otherwise append the whole
64-byte temp buffer, run the frame scan and purge, decode the extracted
frames into the packet buffer, and run the pairing drain loop.  The thread
owns `self` exclusively (it was moved into the closure), so no other code
can mutate `shutdown` while the loop runs; `Drop::drop` — the only writer
of `shutdown` — can only run after the loop body returns. -/
def loopStep (s : LoopState) (chunk : List Nat) : LoopState × Bool :=
  if s.shutdown then
    ({ s with writes := s.writes ++ [[0x73, 0x0A]] }, true)
  else
    let buffer1 := readAppend s.buffer chunk
    let scanned := framerScan buffer1
    let pkts := s.packet_buffer ++ scanned.1.filterMap Packet.from_bytes
    let drained := drain pkts s.slot0 s.slot1 []
    ({ shutdown := s.shutdown
       buffer := buffer1.drop scanned.2
       packet_buffer := drained.1
       slot0 := drained.2.1
       slot1 := drained.2.2.1
       writes := s.writes
       sent := s.sent ++ drained.2.2.2 }, false)

/-- The loop state at entry: `shutdown` is `false` (set by `OpenBCI::new`,
src/lib.rs line 27, and untouched until the loop), all buffers and slots
empty, and the only write performed so far is the start-streaming command
`0x62 0x0A` (src/lib.rs lines 109-111). -/
def initState : LoopState :=
  { shutdown := false
    buffer := []
    packet_buffer := []
    slot0 := none
    slot1 := none
    writes := [[0x62, 0x0A]]
    sent := [] }

/-- Run the acquisition loop over a finite stream of transport reads,
stopping early if an iteration takes the shutdown branch; the second
component records whether the loop exited. -/
def runLoop : LoopState → List (List Nat) → LoopState × Bool
  | s, [] => (s, false)
  | s, chunk :: rest =>
    match loopStep s chunk with
    | (s2, true) => (s2, true)
    | (s2, false) => runLoop s2 rest

/-- An iteration entered with the shutdown flag clear keeps it clear, does
not exit, and performs no transport write. -/
lemma loopStep_no_shutdown (s : LoopState) (chunk : List Nat)
    (h : s.shutdown = false) :
    (loopStep s chunk).1.shutdown = false ∧
    (loopStep s chunk).2 = false ∧
    (loopStep s chunk).1.writes = s.writes := by
  unfold loopStep
  rw [h]
  exact ⟨rfl, rfl, rfl⟩

/-- Any number of iterations entered with the shutdown flag clear keeps it
clear, never exits, and never writes to the transport. -/
lemma runLoop_no_shutdown (chunks : List (List Nat)) :
    ∀ s : LoopState, s.shutdown = false →
    (runLoop s chunks).1.shutdown = false ∧
    (runLoop s chunks).2 = false ∧
    (runLoop s chunks).1.writes = s.writes := by
  induction chunks with
  | nil => intro s h; exact ⟨h, rfl, rfl⟩
  | cons chunk rest ih =>
    intro s h
    obtain ⟨h1, h2, h3⟩ := loopStep_no_shutdown s chunk h
    show (runLoop s (chunk :: rest)).1.shutdown = false ∧ _ ∧ _
    unfold runLoop
    rcases hstep : loopStep s chunk with ⟨s2, exited⟩
    rw [hstep] at h1 h2 h3
    simp only at h1 h2 h3
    subst h2
    simp only []
    obtain ⟨g1, g2, g3⟩ := ih s2 h1
    exact ⟨g1, g2, by rw [g3, h3]⟩

/-- Claim C10: after `start()` the shutdown flag is `false` at loop entry,
and since `start` consumes the `OpenBCI` by move into the spawned thread —
making the loop the sole code able to touch the flag, with `Drop` (the only
writer of `shutdown`) runnable only after the loop body returns — no
iteration ever observes `shutdown = true`: for every finite stream of
transport reads the flag is still `false`, the shutdown branch was never
taken (the loop never exits), and the stop-streaming bytes `0x73 0x0A`
were never written — the start command `0x62 0x0A` is the only write. -/
theorem shutdown_branch_unreachable (chunks : List (List Nat)) :
    initState.shutdown = false ∧
    (runLoop initState chunks).1.shutdown = false ∧
    (runLoop initState chunks).2 = false ∧
    (runLoop initState chunks).1.writes = [[0x62, 0x0A]] ∧
    [0x73, 0x0A] ∉ (runLoop initState chunks).1.writes := by
  obtain ⟨h1, h2, h3⟩ := runLoop_no_shutdown chunks initState rfl
  refine ⟨rfl, h1, h2, h3, ?_⟩
  rw [h3]
  decide
